import Mathlib

/-!
Verification development for the structural extraction engine of
`scripts/analyze_framework.py` (the FrameworkAnalyzer class).

The Python code locates declarations in raw source text with regular
expressions (evaluated with re.finditer) and resolves each class body with a
brace-counting scan.  We embed that behaviour shallowly:

* a small backtracking pattern engine reproduces the semantics of the exact
  regular expressions appearing in the source: candidate lists are ordered in
  Python backtracking priority (alternatives left to right, quantifiers
  greedy), so the head of the candidate list is the match Python commits to;
* `finditer` reproduces re.finditer: leftmost matches, scanning resumes at
  the end of each match;
* `braceScan` embeds the character loop of `_extract_classes` (depth starts
  at 0, an open brace increments, a close brace decrements, the scan stops at
  the close that would take the depth to -1);
* the extractors `extract_imports`, `extract_classes`,
  `extract_class_methods`, `extract_functions`, `extract_interfaces` mirror
  the methods of the same (underscore-prefixed) names.

Character classes: the source compiles its patterns over Python str, where
the class of word characters and of whitespace is Unicode-aware; we use the
ASCII classes (`Char.isAlphanum`, underscore, `Char.isWhitespace`).  No claim
below depends on the membership of a non-ASCII character in those classes.
Python list(set(xs)) deduplicates with unspecified order; we embed it as
`List.dedup`.  Every claim proved about the deduplicated lists is either
order-insensitive (membership, absence, nodup) or evaluated on a list with at
most one distinct element, where all orders agree.
-/

set_option maxRecDepth 20000

namespace AnalyzeFramework

/-- Candidate remaining-input lists for a regex fragment without capture
groups, in backtracking priority order: the head corresponds to the
alternative Python, which tries alternatives left to right and quantifiers
greedily, commits to first. -/
abbrev Pat := List Char → List (List Char)

/-- Concatenation of two pattern fragments. -/
def pseq (a b : Pat) : Pat := fun s => (a s).flatMap b

/-- Alternation, left alternative preferred. -/
def palt (a b : Pat) : Pat := fun s => a s ++ b s

/-- Greedy option: the fragment is tried before it is skipped. -/
def popt (a : Pat) : Pat := fun s => a s ++ [s]

/-- Empty fragment. -/
def peps : Pat := fun s => [s]

/-- Literal character sequence. -/
def plit (cs : List Char) : Pat := fun s =>
  if cs.isPrefixOf s then [s.drop cs.length] else []

/-- Single character from a class. -/
def pcls (p : Char → Bool) : Pat := fun s =>
  match s with
  | [] => []
  | c :: rest => if p c then [rest] else []

/-- Candidates of a greedy star over a character class, longest match
first. -/
def starCands (p : Char → Bool) : List Char → List (List Char)
  | [] => [[]]
  | c :: cs => if p c then starCands p cs ++ [c :: cs] else [c :: cs]

/-- Greedy star over a character class. -/
def pstar (p : Char → Bool) : Pat := fun s => starCands p s

/-- Greedy plus over a character class. -/
def pplus (p : Char → Bool) : Pat := pseq (pcls p) (pstar p)

/-- Candidates for a greedy star over a class, with the consumed prefix
recorded; longest consumed prefix first. -/
def capCands (p : Char → Bool) : List Char → List (List Char × List Char)
  | [] => [([], [])]
  | c :: cs =>
    if p c then ((capCands p cs).map (fun g => (c :: g.1, g.2))) ++ [([], c :: cs)]
    else [([], c :: cs)]

/-- Candidates for a greedy plus over a class, with the consumed prefix
recorded; longest first.  This is the capture group: every pattern in the
source has exactly one capture group and it is a plus over a class. -/
def capPlus (p : Char → Bool) : List Char → List (List Char × List Char)
  | [] => []
  | c :: cs => if p c then (capCands p cs).map (fun g => (c :: g.1, g.2)) else []

/-- A full pattern: a capture-free prefix, a captured class-plus, and a
capture-free suffix. -/
structure CapPat where
  pre : Pat
  capCls : Char → Bool
  post : Pat

/-- All complete matches of a pattern at the head of the input, in Python
backtracking priority order, as (captured group, remaining input). -/
def matchCands (p : CapPat) (s : List Char) : List (List Char × List Char) :=
  (p.pre s).flatMap (fun r1 =>
    (capPlus p.capCls r1).flatMap (fun g =>
      (p.post g.2).map (fun r3 => (g.1, r3))))

/-- The match Python commits to at this position, if any: the captured group
and the number of characters consumed. -/
def matchAt (p : CapPat) (s : List Char) : Option (String × Nat) :=
  (matchCands p s).head?.map (fun g => (String.mk g.1, s.length - g.2.length))

/-- Embeds re.finditer: attempt a match at each position left to right; on a
match, record the captured group and the end offset and resume scanning at
the end of the match.  The first argument is fuel, always called with at
least the length of the remaining input; every step shortens the input, so
the fuel never runs out on the initial call below. -/
def finditerAux (p : CapPat) : Nat → List Char → Nat → List (String × Nat)
  | 0, _, _ => []
  | _ + 1, [], _ => []
  | fuel + 1, c :: cs, pos =>
    match matchAt p (c :: cs) with
    | none => finditerAux p fuel cs (pos + 1)
    | some g =>
      match g.2 with
      | 0 => (g.1, pos) :: finditerAux p fuel cs (pos + 1)
      | k + 1 => (g.1, pos + (k + 1)) :: finditerAux p fuel (cs.drop k) (pos + (k + 1))

/-- Matches of a pattern over a whole text: captured group and end offset of
each match, in textual order. -/
def finditer (p : CapPat) (s : List Char) : List (String × Nat) :=
  finditerAux p s.length s 0

/-- ASCII embedding of the regex word class. -/
def wordChar (c : Char) : Bool := c.isAlphanum || c == '_'

/-- ASCII embedding of the regex whitespace class. -/
def wsChar (c : Char) : Bool := c.isWhitespace

/-- The quote class of the import patterns: a single quote (character 39) or
a double quote (character 34). -/
def quoteChar (c : Char) : Bool := c == Char.ofNat 39 || c == Char.ofNat 34

/-- One or more whitespace characters. -/
def wsPlus : Pat := pplus wsChar

/-- Zero or more whitespace characters. -/
def wsStar : Pat := pstar wsChar

/-- Optional export marker followed by whitespace. -/
def optExport : Pat := popt (pseq (plit "export".data) wsPlus)

/-- The bound-name alternation of the first import pattern: a braced name
list, a star-as binding, or a bare name. -/
def importAlt : Pat :=
  palt (pseq (plit "\x7b".data) (pseq (pplus (fun c => !(c == '\x7d'))) (plit "\x7d".data)))
    (palt (pseq (plit "*".data) (pseq wsPlus (pseq (plit "as".data) (pseq wsPlus (pplus wordChar)))))
      (pplus wordChar))

/-- Embeds the first import pattern of `_extract_imports` (line 129): the
word import, whitespace, a bound-name form, whitespace, the word from,
whitespace, a quote, a captured run of non-quote characters, a quote. -/
def import1Pat : CapPat :=
  CapPat.mk
    (pseq (plit "import".data)
      (pseq wsPlus
        (pseq importAlt
          (pseq wsPlus
            (pseq (plit "from".data) (pseq wsPlus (pcls quoteChar)))))))
    (fun c => !(quoteChar c))
    (pcls quoteChar)

/-- Embeds the second import pattern of `_extract_imports` (line 135): the
word import, whitespace, a quote, a captured run of non-quote characters, a
quote. -/
def import2Pat : CapPat :=
  CapPat.mk
    (pseq (plit "import".data) (pseq wsPlus (pcls quoteChar)))
    (fun c => !(quoteChar c))
    (pcls quoteChar)

/-- Embeds the class pattern of `_extract_classes` (line 151): optional
export marker, optional abstract marker, the word class, whitespace, a
captured word. -/
def classPat : CapPat :=
  CapPat.mk
    (pseq optExport
      (pseq (popt (pseq (plit "abstract".data) wsPlus))
        (pseq (plit "class".data) wsPlus)))
    wordChar
    peps

/-- Embeds the method pattern of `_extract_class_methods` (line 184):
optional async marker, optional visibility marker, a captured word, optional
whitespace, a parenthesised parameter list, optional whitespace, an optional
type annotation (colon, whitespace, a nonempty run of non-open-brace
characters), optional whitespace, an open brace. -/
def methodPat : CapPat :=
  CapPat.mk
    (pseq (popt (pseq (plit "async".data) wsPlus))
      (popt (palt (pseq (plit "public".data) wsPlus)
        (palt (pseq (plit "private".data) wsPlus)
          (pseq (plit "protected".data) wsPlus)))))
    wordChar
    (pseq wsStar
      (pseq (plit "(".data)
        (pseq (pstar (fun c => !(c == ')')))
          (pseq (plit ")".data)
            (pseq wsStar
              (pseq (popt (pseq (plit ":".data)
                  (pseq wsStar (pplus (fun c => !(c == '\x7b'))))))
                (pseq wsStar (plit "\x7b".data))))))))

/-- Embeds the first function pattern of `_extract_functions` (line 200):
optional export, optional async, the word function, whitespace, a captured
word, optional whitespace, an open parenthesis. -/
def funcPat1 : CapPat :=
  CapPat.mk
    (pseq optExport
      (pseq (popt (pseq (plit "async".data) wsPlus))
        (pseq (plit "function".data) wsPlus)))
    wordChar
    (pseq wsStar (plit "(".data))

/-- Embeds the second function pattern of `_extract_functions` (line 201):
optional export, the word const, whitespace, a captured word, optional
whitespace, an equals sign, optional whitespace, optional async, then either
the word function or a parenthesised list followed by an arrow. -/
def funcPat2 : CapPat :=
  CapPat.mk
    (pseq optExport (pseq (plit "const".data) wsPlus))
    wordChar
    (pseq wsStar
      (pseq (plit "=".data)
        (pseq wsStar
          (pseq (popt (pseq (plit "async".data) wsPlus))
            (palt (plit "function".data)
              (pseq (plit "(".data)
                (pseq (pstar (fun c => !(c == ')')))
                  (pseq (plit ")".data) (pseq wsStar (plit "=>".data))))))))))

/-- Embeds the third function pattern of `_extract_functions` (line 202):
optional export, the word const, whitespace, a captured word, a colon,
optional whitespace, a parenthesised list, optional whitespace, an arrow,
optional whitespace, then one of the words void, Promise, any, or an
uppercase letter followed by word characters. -/
def funcPat3 : CapPat :=
  CapPat.mk
    (pseq optExport (pseq (plit "const".data) wsPlus))
    wordChar
    (pseq (plit ":".data)
      (pseq wsStar
        (pseq (plit "(".data)
          (pseq (pstar (fun c => !(c == ')')))
            (pseq (plit ")".data)
              (pseq wsStar
                (pseq (plit "=>".data)
                  (pseq wsStar
                    (palt (plit "void".data)
                      (palt (plit "Promise".data)
                        (palt (plit "any".data)
                          (pseq (pcls (fun c => 'A' ≤ c && c ≤ 'Z'))
                            (pstar wordChar)))))))))))))

/-- Embeds the interface pattern of `_extract_interfaces` (line 219):
optional export, the word interface, whitespace, a captured word. -/
def interfacePat : CapPat :=
  CapPat.mk (pseq optExport (pseq (plit "interface".data) wsPlus)) wordChar peps

/-- Embeds the type pattern of `_extract_interfaces` (line 225): optional
export, the word type, whitespace, a captured word. -/
def typePat : CapPat :=
  CapPat.mk (pseq optExport (pseq (plit "type".data) wsPlus)) wordChar peps

/-- Module references captured by the first import pattern, in textual
order (the first loop of `_extract_imports`). -/
def imports1 (content : String) : List String :=
  (finditer import1Pat content.data).map (fun m => m.1)

/-- Module references captured by the second, side-effect-only import
pattern, in textual order. -/
def imports2 (content : String) : List String :=
  (finditer import2Pat content.data).map (fun m => m.1)

/-- Embeds `_extract_imports` (lines 124-141): every reference of the first
pattern in order, then each reference of the second pattern that is not
already in the list. -/
def extract_imports (content : String) : List String :=
  (imports2 content).foldl
    (fun acc x => if acc.contains x then acc else acc ++ [x]) (imports1 content)

/-- The reserved names excluded by `_extract_class_methods` (line 189). -/
def reservedMethods : List String := ["constructor", "if", "for", "while", "switch"]

/-- Embeds `_extract_class_methods` (lines 179-192): every captured method
name not in the reserved list, deduplicated. -/
def extract_class_methods (class_body : String) : List String :=
  (((finditer methodPat class_body.data).map (fun m => m.1)).filter
    (fun n => !(reservedMethods.contains n))).dedup

/-- Embeds the brace-counting loop of `_extract_classes` (lines 162-169):
the characters still to scan, the index of the next character, and the
running count; an open brace increments, a close brace decrements, and the
scan stops at the close brace that takes the count to -1.  `none` means the
text ended first. -/
def braceScan : List Char → Nat → Int → Option Nat
  | [], _, _ => none
  | c :: cs, i, d =>
    if c = '\x7b' then braceScan cs (i + 1) (d + 1)
    else if c = '\x7d' then
      if d - 1 = -1 then some i else braceScan cs (i + 1) (d - 1)
    else braceScan cs (i + 1) d

/-- Matches of the class pattern over a file: class name and the offset just
after the match (the offset `class_start` the scan begins from). -/
def classMatches (content : String) : List (String × Nat) :=
  finditer classPat content.data

/-- Embeds the computation of `class_end` in `_extract_classes`: the offset
where the scan stopped, or `class_start` itself when the scan ran off the
end of the text. -/
def class_end (content : String) (class_start : Nat) : Nat :=
  match braceScan (content.data.drop class_start) class_start 0 with
  | some i => i
  | none => class_start

/-- Embeds `class_body` in `_extract_classes` (line 171): the slice from
`class_start` to `class_end` when that span is nonempty, otherwise the empty
string. -/
def class_body (content : String) (class_start : Nat) : String :=
  if class_start < class_end content class_start then
    String.mk ((content.data.drop class_start).take (class_end content class_start - class_start))
  else ""

/-- Python dict assignment on an association list: if the key is present its
value is replaced in place, otherwise the pair is appended. -/
def dictInsert (d : List (String × List String)) (k : String) (v : List String) :
    List (String × List String) :=
  if d.any (fun p => p.1 == k) then
    d.map (fun p => if p.1 == k then (k, v) else p)
  else d ++ [(k, v)]

/-- Lookup in the association list embedding of a Python dict. -/
def lookupD (d : List (String × List String)) (k : String) : Option (List String) :=
  (d.find? (fun p => p.1 == k)).map (fun p => p.2)

/-- The (name, methods) pair computed for each class match, in textual
order. -/
def classPairs (content : String) : List (String × List String) :=
  (classMatches content).map
    (fun m => (m.1, extract_class_methods (class_body content m.2)))

/-- Embeds `_extract_classes` (lines 143-177): for each match of the class
pattern, scan for the class end, take the body slice, extract its methods,
and assign into the dict. -/
def extract_classes (content : String) : List (String × List String) :=
  (classPairs content).foldl (fun d p => dictInsert d p.1 p.2) []

/-- The reserved names excluded by `_extract_functions` (line 209). -/
def reservedCtrl : List String := ["if", "for", "while", "switch"]

/-- Embeds `_extract_functions` (lines 194-212): captured names of the three
function patterns in pattern order, filtered by the reserved list,
deduplicated. -/
def extract_functions (content : String) : List String :=
  ((((finditer funcPat1 content.data) ++ (finditer funcPat2 content.data) ++
      (finditer funcPat3 content.data)).map (fun m => m.1)).filter
    (fun n => !(reservedCtrl.contains n))).dedup

/-- Embeds `_extract_interfaces` (lines 214-230): interface names tagged
with the word interface, then type names tagged with the word type. -/
def extract_interfaces (content : String) : List String :=
  ((finditer interfacePat content.data).map (fun m => "interface " ++ m.1)) ++
    ((finditer typePat content.data).map (fun m => "type " ++ m.1))

/-- The full per-file extraction of `_analyze_and_print_file` (lines 74-84):
the imports, classes, functions, and interfaces, all pure functions of the
content. -/
def analyzeFile (content : String) :
    List String × List (String × List String) × List String × List String :=
  (extract_imports content, extract_classes content,
    extract_functions content, extract_interfaces content)

/-- Embeds the path validation of `main` (lines 286-295): with a positional
argument, a missing path or a non-directory path calls sys.exit(1);
otherwise, and also without an argument, the script runs to the end and the
process exits with code 0. -/
def mainExitCode (hasArg targetDirExists targetIsDir : Bool) : Nat :=
  if hasArg then
    if !targetDirExists then 1
    else if !targetIsDir then 1
    else 0
  else 0

end AnalyzeFramework


namespace AnalyzeFramework

/-- Brace contribution of one character to the running count of the scan. -/
def braceDelta (c : Char) : Int :=
  if c = '\x7b' then 1 else if c = '\x7d' then -1 else 0

/-- Total brace depth change over a text. -/
def depthOf (s : List Char) : Int := (s.map braceDelta).sum

/-- Running the depth count from `d` over `s`, the count never becomes
negative. -/
def okFrom : Int → List Char → Bool
  | _, [] => true
  | d, c :: cs => if d + braceDelta c < 0 then false else okFrom (d + braceDelta c) cs

/-- A well-formed (balanced) body: the depth count from zero never goes
negative and returns to zero at the end. -/
def balanced (s : List Char) : Bool := okFrom 0 s && (depthOf s == 0)

/-- The scan started at depth `d` runs off the end of `s` without stopping:
`s` contains no close brace that would take the count to -1. -/
def passThru : Int → List Char → Bool
  | _, [] => true
  | d, c :: cs => if c == '\x7d' && d == 0 then false else passThru (d + braceDelta c) cs

/-- The value assigned to a key by the textually last pair carrying it. -/
def lastVal (k : String) : List (String × List String) → Option (List String)
  | [] => none
  | p :: ps =>
    match lastVal k ps with
    | some v => some v
    | none => if p.1 == k then some p.2 else none

/-- The offset recorded by the textually last class match with a given
name. -/
def lastMatch (k : String) : List (String × Nat) → Option Nat
  | [] => none
  | m :: ms =>
    match lastMatch k ms with
    | some s => some s
    | none => if m.1 == k then some m.2 else none

theorem depthOf_nil : depthOf [] = 0 := rfl

theorem depthOf_cons (c : Char) (cs : List Char) :
    depthOf (c :: cs) = braceDelta c + depthOf cs := by
  simp [depthOf]

theorem depthOf_append (xs ys : List Char) :
    depthOf (xs ++ ys) = depthOf xs + depthOf ys := by
  simp [depthOf]

theorem passThru_of_okFrom : ∀ (s : List Char) (d : Int),
    okFrom d s = true → passThru d s = true := by
  intro s
  induction s with
  | nil => intro d _; rfl
  | cons c cs ih =>
    intro d h
    rw [okFrom] at h
    rw [passThru]
    by_cases hneg : d + braceDelta c < 0
    · rw [if_pos hneg] at h
      exact absurd h (by simp)
    · rw [if_neg hneg] at h
      have hcond : (c == '\x7d' && d == 0) = false := by
        by_cases hc : c = '\x7d'
        · have hδ : braceDelta c = -1 := by simp [braceDelta, hc]
          have hd : ¬(d = 0) := by
            intro h0
            rw [h0, hδ] at hneg
            exact hneg (by norm_num)
          simp [hd]
        · simp [hc]
      rw [hcond]
      simp only [Bool.false_eq_true, if_false]
      exact ih _ h

theorem braceScan_append : ∀ (body rest : List Char) (i : Nat) (d : Int),
    passThru d body = true →
    braceScan (body ++ rest) i d = braceScan rest (i + body.length) (d + depthOf body) := by
  intro body
  induction body with
  | nil => intro rest i d _; simp [depthOf_nil]
  | cons c cs ih =>
    intro rest i d h
    rw [passThru] at h
    by_cases hstop : (c == '\x7d' && d == 0) = true
    · rw [if_pos hstop] at h
      exact absurd h (by simp)
    · rw [if_neg (by simpa using hstop)] at h
      rw [List.cons_append, braceScan]
      by_cases h1 : c = '\x7b'
      · rw [if_pos h1]
        have hδ : braceDelta c = 1 := by simp [braceDelta, h1]
        rw [hδ] at h
        rw [ih rest (i + 1) (d + 1) h]
        rw [depthOf_cons, hδ]
        congr 1
        · simp [List.length_cons]; omega
        · omega
      · rw [if_neg h1]
        by_cases h2 : c = '\x7d'
        · rw [if_pos h2]
          have hδ : braceDelta c = -1 := by simp [braceDelta, h1, h2]
          have hd0 : ¬(d = 0) := by
            intro h0
            apply hstop
            simp [h2, h0]
          rw [if_neg (by omega)]
          have h9 : d + braceDelta c = d - 1 := by rw [hδ]; omega
          rw [h9] at h
          rw [ih rest (i + 1) (d - 1) h]
          rw [depthOf_cons, hδ]
          congr 1
          · simp [List.length_cons]; omega
          · omega
        · rw [if_neg h2]
          have hδ : braceDelta c = 0 := by simp [braceDelta, h1, h2]
          rw [hδ, add_zero] at h
          rw [ih rest (i + 1) d h]
          rw [depthOf_cons, hδ]
          congr 1
          · simp [List.length_cons]; omega
          · omega

theorem braceScan_none_of_passThru (s : List Char) (i : Nat) (d : Int)
    (h : passThru d s = true) : braceScan s i d = none := by
  have h2 := braceScan_append s [] i d h
  simpa [braceScan] using h2

theorem okFrom_append (xs ys : List Char) (d : Int) :
    okFrom d (xs ++ ys) = (okFrom d xs && okFrom (d + depthOf xs) ys) := by
  induction xs generalizing d with
  | nil => simp [okFrom, depthOf_nil]
  | cons c cs ih =>
    rw [List.cons_append, okFrom, okFrom]
    by_cases hneg : d + braceDelta c < 0
    · simp [hneg]
    · rw [if_neg hneg, if_neg hneg, ih]
      rw [depthOf_cons]
      congr 2
      omega

theorem okFrom_mono (xs : List Char) : ∀ (d e : Int),
    okFrom d xs = true → d ≤ e → okFrom e xs = true := by
  induction xs with
  | nil => intro d e _ _; rfl
  | cons c cs ih =>
    intro d e h hde
    rw [okFrom] at h ⊢
    by_cases hneg : d + braceDelta c < 0
    · rw [if_pos hneg] at h
      exact absurd h (by simp)
    · rw [if_neg hneg] at h
      rw [if_neg (by omega)]
      exact ih (d + braceDelta c) (e + braceDelta c) h (by omega)

theorem okFrom_nonneg (xs : List Char) : ∀ (d : Int),
    okFrom d xs = true → 0 ≤ d → 0 ≤ d + depthOf xs := by
  induction xs with
  | nil => intro d _ hd; simpa [depthOf_nil] using hd
  | cons c cs ih =>
    intro d h hd
    rw [okFrom] at h
    by_cases hneg : d + braceDelta c < 0
    · rw [if_pos hneg] at h
      exact absurd h (by simp)
    · rw [if_neg hneg] at h
      have := ih (d + braceDelta c) h (by omega)
      rw [depthOf_cons]
      omega

theorem balanced_okFrom {s : List Char} (h : balanced s = true) : okFrom 0 s = true := by
  rw [balanced, Bool.and_eq_true] at h
  exact h.1

theorem balanced_depthOf {s : List Char} (h : balanced s = true) : depthOf s = 0 := by
  rw [balanced, Bool.and_eq_true] at h
  exact by simpa using h.2

theorem balanced_insert (b1 b2 ins : List Char) (h : balanced (b1 ++ b2) = true)
    (hins : balanced ins = true) : balanced (b1 ++ ins ++ b2) = true := by
  have hok := balanced_okFrom h
  have hdep := balanced_depthOf h
  rw [okFrom_append, Bool.and_eq_true] at hok
  have hd1 : 0 ≤ depthOf b1 := by
    have := okFrom_nonneg b1 0 hok.1 le_rfl
    simpa using this
  rw [balanced, Bool.and_eq_true]
  constructor
  · rw [List.append_assoc, okFrom_append, Bool.and_eq_true]
    refine ⟨hok.1, ?_⟩
    rw [okFrom_append, Bool.and_eq_true]
    constructor
    · have h0 : okFrom 0 ins = true := balanced_okFrom hins
      exact okFrom_mono ins 0 (0 + depthOf b1) h0 (by omega)
    · have hdi : depthOf ins = 0 := balanced_depthOf hins
      have : 0 + depthOf b1 + depthOf ins = 0 + depthOf b1 := by omega
      rw [this]
      exact hok.2
  · have hdi : depthOf ins = 0 := balanced_depthOf hins
    have hdall : depthOf (b1 ++ b2) = 0 := hdep
    rw [depthOf_append] at hdall
    simp [depthOf_append, hdi]
    omega

end AnalyzeFramework

namespace AnalyzeFramework

theorem find_replace_self (k : String) (v : List String) :
    ∀ d : List (String × List String), d.any (fun p => p.1 == k) = true →
    (d.map (fun p => if p.1 == k then (k, v) else p)).find? (fun p => p.1 == k) =
      some (k, v) := by
  intro d
  induction d with
  | nil => intro h; exact absurd h (by simp)
  | cons q d ih =>
    intro h
    by_cases hq : (q.1 == k) = true
    · simp [List.find?, hq]
    · have hq2 : (q.1 == k) = false := by simpa using hq
      have h2 : d.any (fun p => p.1 == k) = true := by
        rw [List.any_cons, hq2] at h
        simpa using h
      simp only [List.map_cons, List.find?, hq2, if_neg]
      simpa [hq2] using ih h2

theorem lookupD_dictInsert_self (d : List (String × List String)) (k : String)
    (v : List String) : lookupD (dictInsert d k v) k = some v := by
  rw [dictInsert]
  by_cases h : d.any (fun p => p.1 == k) = true
  · rw [if_pos h, lookupD, find_replace_self k v d h]
    rfl
  · rw [if_neg h, lookupD]
    have hfalse : d.any (fun p => p.1 == k) = false := eq_false_of_ne_true h
    have hnone : d.find? (fun p => p.1 == k) = none := by
      apply List.find?_eq_none.mpr
      intro p hp
      have := List.any_eq_false.mp hfalse p hp
      simpa using this
    rw [List.find?_append, hnone]
    simp [List.find?]

theorem lookupD_dictInsert_other (d : List (String × List String)) (k k' : String)
    (v : List String) (hkk : ¬(k' = k)) :
    lookupD (dictInsert d k v) k' = lookupD d k' := by
  rw [dictInsert]
  by_cases h : d.any (fun p => p.1 == k) = true
  · rw [if_pos h]
    rw [lookupD, lookupD]
    induction d with
    | nil => rfl
    | cons q d ih =>
      by_cases hq : (q.1 == k) = true
      · have hqk : q.1 = k := eq_of_beq hq
        have hqk' : (q.1 == k') = false := by
          simp [hqk]
          intro hc
          exact hkk hc.symm
        have hkk' : ((k : String) == k') = false := by
          simp
          intro hc
          exact hkk hc.symm
        simp only [List.map_cons, List.find?, hq, if_pos, hqk', hkk']
        by_cases h2 : d.any (fun p => p.1 == k) = true
        · simpa [hqk'] using ih h2
        · have hfalse : d.any (fun p => p.1 == k) = false := eq_false_of_ne_true h2
          have hd : (d.map (fun p => if p.1 == k then (k, v) else p)) = d := by
            have hid : (d.map (fun p => if p.1 == k then (k, v) else p)) = d.map id := by
              apply List.map_congr_left
              intro p hp
              have hpk : (p.1 == k) = false := by
                have := List.any_eq_false.mp hfalse p hp
                simpa using this
              simp [hpk]
            simpa using hid
          rw [hd]
      · have hq2 : (q.1 == k) = false := by simpa using hq
        have h2 : d.any (fun p => p.1 == k) = true := by
          rw [List.any_cons, hq2] at h
          simpa using h
        by_cases hq' : (q.1 == k') = true
        · simp only [List.map_cons, List.find?, hq2, hq', if_neg]
          simp [hq2, hq']
        · have hq'2 : (q.1 == k') = false := by simpa using hq'
          simp only [List.map_cons, List.find?, hq2, hq'2, if_neg]
          simpa [hq2, hq'2] using ih h2
  · rw [if_neg h]
    rw [lookupD, lookupD, List.find?_append]
    have hk' : (((k, v) : String × List String).1 == k') = false := by
      simp
      intro hc
      exact hkk hc.symm
    cases hfd : d.find? (fun p => p.1 == k') with
    | some p => simp [hfd]
    | none => simp [hfd, List.find?, hk']

theorem lookupD_foldl (k : String) :
    ∀ (pairs : List (String × List String)) (d : List (String × List String)),
    lookupD (pairs.foldl (fun a p => dictInsert a p.1 p.2) d) k =
      (match lastVal k pairs with
       | some v => some v
       | none => lookupD d k) := by
  intro pairs
  induction pairs with
  | nil => intro d; rfl
  | cons p ps ih =>
    intro d
    rw [List.foldl_cons, ih, lastVal]
    cases hlv : lastVal k ps with
    | some v => rfl
    | none =>
      by_cases hpk : (p.1 == k) = true
      · have : p.1 = k := eq_of_beq hpk
        rw [hpk]
        simp only [if_pos]
        rw [← this, lookupD_dictInsert_self]
      · have hpk2 : (p.1 == k) = false := by simpa using hpk
        rw [hpk2]
        simp only [Bool.false_eq_true, if_false]
        apply lookupD_dictInsert_other
        intro hc
        rw [hc] at hpk2
        simp at hpk2

end AnalyzeFramework

namespace AnalyzeFramework

theorem lastVal_map_matches (k : String) (f : Nat → List String) :
    ∀ ms : List (String × Nat),
    lastVal k (ms.map (fun m => (m.1, f m.2))) = (lastMatch k ms).map f := by
  intro ms
  induction ms with
  | nil => rfl
  | cons m ms ih =>
    rw [List.map_cons, lastVal, lastMatch, ih]
    cases hlm : lastMatch k ms with
    | some s => rfl
    | none =>
      by_cases hmk : (m.1 == k) = true
      · simp [hmk]
      · have hmk2 : (m.1 == k) = false := eq_false_of_ne_true hmk
        simp [hmk2]

theorem lastVal_isSome (k : String) :
    ∀ pairs : List (String × List String),
    (∃ p ∈ pairs, (p.1 == k) = true) → (lastVal k pairs).isSome = true := by
  intro pairs
  induction pairs with
  | nil => intro h; exact absurd h (by simp)
  | cons p ps ih =>
    intro h
    rw [lastVal]
    cases hlv : lastVal k ps with
    | some v => rfl
    | none =>
      rcases h with ⟨q, hq, hqk⟩
      rcases List.mem_cons.mp hq with hq1 | hq2
      · rw [← hq1, hqk]
        simp
      · have := ih ⟨q, hq2, hqk⟩
        rw [hlv] at this
        exact absurd this (by simp)

theorem lastVal_some_mem (k : String) (w : List String) :
    ∀ pairs : List (String × List String),
    lastVal k pairs = some w → ∃ p ∈ pairs, (p.1 == k) = true ∧ p.2 = w := by
  intro pairs
  induction pairs with
  | nil => intro h; simp [lastVal] at h
  | cons p ps ih =>
    intro h
    rw [lastVal] at h
    cases hlv : lastVal k ps with
    | some v =>
      rw [hlv] at h
      have hvw : v = w := by injection h
      rcases ih (hlv.trans (by rw [hvw])) with ⟨q, hq, hqk, hq2⟩
      exact ⟨q, List.mem_cons_of_mem p hq, hqk, hq2⟩
    | none =>
      rw [hlv] at h
      by_cases hpk : (p.1 == k) = true
      · rw [hpk] at h
        simp at h
        exact ⟨p, List.mem_cons_self p ps, hpk, h⟩
      · rw [eq_false_of_ne_true hpk] at h
        simp at h

theorem lastVal_const (k : String) (v : List String) :
    ∀ pairs : List (String × List String),
    (∀ p ∈ pairs, (p.1 == k) = true → p.2 = v) →
    (∃ p ∈ pairs, (p.1 == k) = true) →
    lastVal k pairs = some v := by
  intro pairs hall hex
  cases hlv : lastVal k pairs with
  | none =>
    exfalso
    have := lastVal_isSome k pairs hex
    rw [hlv] at this
    simp at this
  | some w =>
    rcases lastVal_some_mem k w pairs hlv with ⟨p, hp, hpk, hpw⟩
    rw [← hpw, hall p hp hpk]

theorem keys_dictInsert (d : List (String × List String)) (k : String) (v : List String) :
    (dictInsert d k v).map Prod.fst =
      if d.any (fun p => p.1 == k) = true then d.map Prod.fst
      else d.map Prod.fst ++ [k] := by
  rw [dictInsert]
  by_cases h : d.any (fun p => p.1 == k) = true
  · rw [if_pos h, if_pos h, List.map_map]
    apply List.map_congr_left
    intro p _
    by_cases hpk : p.1 = k
    · simp [Function.comp, hpk]
    · simp [Function.comp, hpk]
  · rw [if_neg h, if_neg h]
    simp

theorem mem_keys_dictInsert_self (d : List (String × List String)) (k : String)
    (v : List String) : k ∈ (dictInsert d k v).map Prod.fst := by
  rw [keys_dictInsert]
  by_cases h : d.any (fun p => p.1 == k) = true
  · rw [if_pos h]
    rcases List.any_eq_true.mp h with ⟨p, hp, hpk⟩
    have : p.1 = k := eq_of_beq hpk
    rw [← this]
    exact List.mem_map_of_mem Prod.fst hp
  · rw [if_neg h]
    simp

theorem mem_keys_dictInsert_mono (d : List (String × List String)) (k k' : String)
    (v : List String) (h : k ∈ d.map Prod.fst) :
    k ∈ (dictInsert d k' v).map Prod.fst := by
  rw [keys_dictInsert]
  by_cases h2 : d.any (fun p => p.1 == k') = true
  · rw [if_pos h2]; exact h
  · rw [if_neg h2]; exact List.mem_append_left _ h

theorem mem_keys_foldl_mono (k : String) :
    ∀ (pairs : List (String × List String)) (d : List (String × List String)),
    k ∈ d.map Prod.fst →
    k ∈ ((pairs.foldl (fun a p => dictInsert a p.1 p.2) d)).map Prod.fst := by
  intro pairs
  induction pairs with
  | nil => intro d h; exact h
  | cons p ps ih =>
    intro d h
    rw [List.foldl_cons]
    exact ih _ (mem_keys_dictInsert_mono d k p.1 p.2 h)

theorem mem_keys_foldl (k : String) :
    ∀ (pairs : List (String × List String)) (d : List (String × List String)),
    (∃ p ∈ pairs, p.1 = k) →
    k ∈ ((pairs.foldl (fun a p => dictInsert a p.1 p.2) d)).map Prod.fst := by
  intro pairs
  induction pairs with
  | nil => intro d h; exact absurd h (by simp)
  | cons p ps ih =>
    intro d h
    rcases h with ⟨q, hq, hqk⟩
    rcases List.mem_cons.mp hq with hq1 | hq2
    · rw [List.foldl_cons]
      apply mem_keys_foldl_mono
      rw [← hqk, hq1]
      exact mem_keys_dictInsert_self d p.1 p.2
    · rw [List.foldl_cons]
      exact ih _ ⟨q, hq2, hqk⟩

theorem nodup_keys_dictInsert (d : List (String × List String)) (k : String)
    (v : List String) (h : (d.map Prod.fst).Nodup) :
    ((dictInsert d k v).map Prod.fst).Nodup := by
  rw [keys_dictInsert]
  by_cases h2 : d.any (fun p => p.1 == k) = true
  · rw [if_pos h2]; exact h
  · rw [if_neg h2]
    have hfalse : d.any (fun p => p.1 == k) = false := eq_false_of_ne_true h2
    have hk : k ∉ d.map Prod.fst := by
      intro hk
      rcases List.mem_map.mp hk with ⟨p, hp, hpk⟩
      have := List.any_eq_false.mp hfalse p hp
      rw [hpk] at this
      simp at this
    rw [List.nodup_append_comm]
    exact List.nodup_cons.mpr ⟨hk, h⟩

theorem nodup_keys_foldl :
    ∀ (pairs : List (String × List String)) (d : List (String × List String)),
    (d.map Prod.fst).Nodup →
    (((pairs.foldl (fun a p => dictInsert a p.1 p.2) d)).map Prod.fst).Nodup := by
  intro pairs
  induction pairs with
  | nil => intro d h; exact h
  | cons p ps ih =>
    intro d h
    rw [List.foldl_cons]
    exact ih _ (nodup_keys_dictInsert d p.1 p.2 h)

theorem countP_keys (k : String) :
    ∀ d : List (String × List String),
    d.countP (fun p => p.1 == k) = (d.map Prod.fst).count k := by
  intro d
  induction d with
  | nil => rfl
  | cons p ps ih =>
    rw [List.map_cons, List.countP_cons, List.count_cons, ih]

theorem count_foldl_mem (x : String) :
    ∀ (l acc : List String), x ∈ acc →
    (l.foldl (fun a m => if a.contains m then a else a ++ [m]) acc).count x =
      acc.count x := by
  intro l
  induction l with
  | nil => intro acc _; rfl
  | cons m ms ih =>
    intro acc hx
    rw [List.foldl_cons]
    by_cases h : acc.contains m = true
    · rw [if_pos h]
      exact ih acc hx
    · rw [if_neg (by simpa using h)]
      have hmx : ¬(m = x) := by
        intro he
        subst he
        exact h (List.elem_eq_true_of_mem hx)
      rw [ih (acc ++ [m]) (List.mem_append_left _ hx)]
      rw [List.count_append]
      have h0 : ([m] : List String).count x = 0 := by
        rw [List.count_cons, List.count_nil]
        simp [hmx]
      rw [h0]
      omega

end AnalyzeFramework

namespace AnalyzeFramework

theorem extract_class_methods_empty : extract_class_methods "" = [] := by decide

theorem class_body_of_scan_none (content : String) (s : Nat)
    (h : braceScan (content.data.drop s) s 0 = none) : class_body content s = "" := by
  rw [class_body, class_end, h]
  simp

/-- Claim C1 (code bug witness): on the file content
`class Foo \x7b bar() \x7b if (x) \x7b y(); \x7d \x7d baz() \x7b\x7d \x7d`
the extractor produces the class record for Foo with an **empty** member
list, not the member set containing bar and baz that the specification
scenario demands.  The brace-counting scan of `_extract_classes` starts at
the end of the class-name match, before the opening brace of the class body,
and stops only at a close brace that would take the count to -1; on this
well-formed input the count returns to 0 and never reaches -1, so the body
slice is empty and no methods are found. -/
theorem claim_C1_scenario_members_empty :
    extract_classes "class Foo \x7b bar() \x7b if (x) \x7b y(); \x7d \x7d baz() \x7b\x7d \x7d" =
      [("Foo", [])] := by
  decide

/-- Claim C2: starting immediately after an opening brace of a well-formed
(balanced) body, the delimiter-balance scan (count starts at 0, open brace
increments, close brace decrements, stop at the close that would take the
count to -1) returns the offset of the matching close brace; and inserting
any balanced text (in particular any number of extra balanced brace pairs)
anywhere inside the body leaves the same textual close brace identified as
the outer one. -/
theorem claim_C2_scanner_finds_matching_close (start : Nat) (b1 b2 ins rest : List Char)
    (hbal : balanced (b1 ++ b2) = true) (hins : balanced ins = true) :
    braceScan (b1 ++ b2 ++ '\x7d' :: rest) start 0 =
      some (start + b1.length + b2.length) ∧
    braceScan (b1 ++ ins ++ b2 ++ '\x7d' :: rest) start 0 =
      some (start + b1.length + ins.length + b2.length) := by
  have main : ∀ body : List Char, balanced body = true →
      braceScan (body ++ '\x7d' :: rest) start 0 = some (start + body.length) := by
    intro body hb
    have hpt := passThru_of_okFrom body 0 (balanced_okFrom hb)
    rw [braceScan_append body ('\x7d' :: rest) start 0 hpt]
    rw [balanced_depthOf hb]
    rw [braceScan]
    rw [if_neg (by decide), if_pos (by decide)]
    rw [if_pos (by decide)]
  constructor
  · have h1 := main (b1 ++ b2) hbal
    rw [h1, List.length_append]
    congr 1
    omega
  · have hbal2 : balanced (b1 ++ ins ++ b2) = true := balanced_insert b1 b2 ins hbal hins
    have h2 := main (b1 ++ ins ++ b2) hbal2
    rw [h2, List.length_append, List.length_append]
    congr 1
    omega

/-- Instantiation of claim C2 on a concrete balanced body and insertion. -/
theorem claim_C2_scanner_finds_matching_close_witness :
    braceScan (['\x7b', '\x7d'] ++ ['x'] ++ '\x7d' :: ['z']) 5 0 =
      some (5 + List.length ['\x7b', '\x7d'] + List.length ['x']) ∧
    braceScan (['\x7b', '\x7d'] ++ ['\x7b', '\x7d'] ++ ['x'] ++ '\x7d' :: ['z']) 5 0 =
      some (5 + List.length ['\x7b', '\x7d'] + List.length ['\x7b', '\x7d'] +
        List.length ['x']) :=
  claim_C2_scanner_finds_matching_close 5 ['\x7b', '\x7d'] ['x'] ['\x7b', '\x7d'] ['z']
    (by decide) (by decide)

/-- Claim C3: when the region scanned for a class contains no close brace
that would take the count to -1 (hypothesis `passThru`), the scan reports
none rather than any offset, the body span of the affected class is empty,
its extracted member list is empty, and the class still appears in the
result mapped to the empty member list: the extraction completes without a
fatal error.  The second hypothesis states the scan condition for every
declaration of that class name, so that the final mapping entry is
determined. -/
theorem claim_C3_unmatched_open_not_fatal (content : String) (name : String) (cstart : Nat)
    (h1 : (name, cstart) ∈ classMatches content)
    (h2 : (classMatches content).all
      (fun m => m.1 != name || passThru 0 (content.data.drop m.2)) = true) :
    braceScan (content.data.drop cstart) cstart 0 = none ∧
    class_body content cstart = "" ∧
    extract_class_methods (class_body content cstart) = [] ∧
    lookupD (extract_classes content) name = some [] := by
  have hpt : ∀ m ∈ classMatches content, (m.1 == name) = true →
      passThru 0 (content.data.drop m.2) = true := by
    intro m hm hmk
    have hall := List.all_eq_true.mp h2 m hm
    rw [bne, hmk] at hall
    simpa using hall
  have hpass : passThru 0 (content.data.drop cstart) = true :=
    hpt (name, cstart) h1 (by simp)
  have hnone := braceScan_none_of_passThru (content.data.drop cstart) cstart 0 hpass
  have hbody := class_body_of_scan_none content cstart hnone
  refine ⟨hnone, hbody, ?_, ?_⟩
  · rw [hbody, extract_class_methods_empty]
  · rw [extract_classes, lookupD_foldl]
    have hlv : lastVal name (classPairs content) = some [] := by
      apply lastVal_const
      · intro q hq hqk
        rcases List.mem_map.mp hq with ⟨m, hm, hqm⟩
        have hmk : (m.1 == name) = true := by rw [← hqm] at hqk; exact hqk
        have hpt2 := hpt m hm hmk
        have hn2 := braceScan_none_of_passThru (content.data.drop m.2) m.2 0 hpt2
        have hb2 := class_body_of_scan_none content m.2 hn2
        rw [← hqm]
        show extract_class_methods (class_body content m.2) = []
        rw [hb2, extract_class_methods_empty]
      · unfold classPairs
        refine ⟨(name, extract_class_methods (class_body content cstart)), ?_, by simp⟩
        exact List.mem_map_of_mem
          (fun m : String × Nat => (m.1, extract_class_methods (class_body content m.2))) h1
    rw [hlv]

/-- Instantiation of claim C3 on the truncated file `class A`. -/
theorem claim_C3_unmatched_open_not_fatal_witness :
    braceScan (("class A").data.drop 7) 7 0 = none ∧
    class_body "class A" 7 = "" ∧
    extract_class_methods (class_body "class A" 7) = [] ∧
    lookupD (extract_classes "class A") "A" = some [] :=
  claim_C3_unmatched_open_not_fatal "class A" "A" 7 (by decide) (by decide)

/-- Refutation of claim C4 as stated: with an argument naming a missing
path, the process exit code embedded from `main` is 1, not the 2 the claim
demands. -/
theorem claim_C4_exit_code_cex :
    mainExitCode true false true = 1 ∧ ¬(mainExitCode true false true = 2) := by
  decide

/-- Claim C4 amended: when the CLI is given a positional path argument that
does not exist or is not a directory, the process prints a message and exits
with code 1 (the source calls sys.exit(1), not 2); otherwise, and also when
no argument is given, it exits with code 0 after printing. -/
theorem claim_C4_exit_codes (e d : Bool) :
    (mainExitCode true e d = if e && d then 0 else 1) ∧
    mainExitCode false e d = 0 := by
  cases e <;> cases d <;> decide

end AnalyzeFramework

namespace AnalyzeFramework

/-- Refutation of the universal clause of claim C5 as stated: in the file
content `import A from "m" import B from "m" import "m"` the module
reference m is matched by the side-effect-only import form and was already
captured by the bound-name form, yet it appears twice in the output, because
the bound-name pass captured it twice and that pass never deduplicates. -/
theorem claim_C5_imports_cex :
    (extract_imports "import A from \"m\" import B from \"m\" import \"m\"").count "m" = 2 ∧
    "m" ∈ imports1 "import A from \"m\" import B from \"m\" import \"m\"" ∧
    "m" ∈ imports2 "import A from \"m\" import B from \"m\" import \"m\"" := by
  decide

/-- Claim C5 amended: the scenario holds as stated, and in general a module
reference captured by the bound-name import form occurs in the output
exactly as often as the bound-name pass captured it: the side-effect-only
pass never appends a reference that is already present, so it adds no
further occurrence (the bound-name pass itself may list a reference more
than once). -/
theorem claim_C5_imports (content : String) (x : String) (hx : x ∈ imports1 content) :
    extract_imports "import \x7b A \x7d from \"mod1\"; import \"mod2\";" = ["mod1", "mod2"] ∧
    (extract_imports content).count x = (imports1 content).count x := by
  refine ⟨by decide, ?_⟩
  exact count_foldl_mem x (imports2 content) (imports1 content) hx

/-- Instantiation of claim C5 on a concrete bound-name import. -/
theorem claim_C5_imports_witness :
    extract_imports "import \x7b A \x7d from \"mod1\"; import \"mod2\";" = ["mod1", "mod2"] ∧
    (extract_imports "import Q from \"q\"").count "q" =
      (imports1 "import Q from \"q\"").count "q" :=
  claim_C5_imports "import Q from \"q\"" "q" (by decide)

/-- Refutation of claim C6 as stated: the standalone-function extractor
filters only the four control keywords, not constructor, so the file content
`function constructor(` yields the name constructor. -/
theorem claim_C6_functions_cex :
    extract_functions "function constructor(" = ["constructor"] := by
  decide

/-- Claim C6 amended: the standalone-function extractor never returns any of
the four control keywords it filters (if, for, while, switch); unlike the
member-operation matcher it does not exclude constructor. -/
theorem claim_C6_functions_reserved (content : String) (f : String)
    (hf : f ∈ extract_functions content) :
    ¬(f = "if" ∨ f = "for" ∨ f = "while" ∨ f = "switch") := by
  intro hcase
  have hmem := List.mem_dedup.mp hf
  have hfil := (List.mem_filter.mp hmem).2
  have hnot : f ∉ reservedCtrl := by simpa using hfil
  apply hnot
  rcases hcase with h | h | h | h <;> (rw [h]; decide)

/-- Instantiation of claim C6 on a concrete function declaration. -/
theorem claim_C6_functions_reserved_witness :
    ¬("f" = "if" ∨ "f" = "for" ∨ "f" = "while" ∨ "f" = "switch") :=
  claim_C6_functions_reserved "function f(" "f" (by decide)

/-- Claim C7: for every class body text the member-operation extractor
returns none of the five reserved names, returns no duplicate names, and a
class body consisting only of a conditional block yields an empty member
list. -/
theorem claim_C7_methods_reserved_nodup :
    (∀ (class_body : String) (m : String), m ∈ extract_class_methods class_body →
      ¬(m = "constructor" ∨ m = "if" ∨ m = "for" ∨ m = "while" ∨ m = "switch")) ∧
    (∀ class_body : String, (extract_class_methods class_body).Nodup) ∧
    extract_class_methods "if (x) \x7b y(); \x7d" = [] := by
  refine ⟨?_, ?_, by decide⟩
  · intro body m hm hcase
    have hmem := List.mem_dedup.mp hm
    have hfil := (List.mem_filter.mp hmem).2
    have hnot : m ∉ reservedMethods := by simpa using hfil
    apply hnot
    rcases hcase with h | h | h | h | h <;> (rw [h]; decide)
  · intro body
    exact List.nodup_dedup _

/-- Instantiation of claim C7 on a concrete class body with one method. -/
theorem claim_C7_methods_reserved_nodup_witness :
    ¬("x" = "constructor" ∨ "x" = "if" ∨ "x" = "for" ∨ "x" = "while" ∨ "x" = "switch") :=
  claim_C7_methods_reserved_nodup.1 "x()\x7b" "x" (by decide)

/-- Claim C8: on the file content `interface Shape \x7b\x7d type Point =
\x7bx:number\x7d` the type and interface extractor returns exactly the two
tagged names. -/
theorem claim_C8_interfaces_scenario :
    extract_interfaces "interface Shape \x7b\x7d type Point = \x7bx:number\x7d" =
      ["interface Shape", "type Point"] := by
  decide

/-- Claim C9: the per-file extraction is a pure function of the file
content: running it on equal contents yields equal results, with no hidden
state or randomness in the embedding. -/
theorem claim_C9_extraction_deterministic (c1 c2 : String) (h : c1 = c2) :
    analyzeFile c1 = analyzeFile c2 := by
  rw [h]

/-- Instantiation of claim C9 on a concrete content. -/
theorem claim_C9_extraction_deterministic_witness :
    analyzeFile "class A" = analyzeFile "class A" :=
  claim_C9_extraction_deterministic "class A" "class A" rfl

/-- Claim C10: when the same class name is matched more than once in a file,
the resulting mapping has exactly one entry for that name, and its member
list is the one computed from the textually last matching declaration
(members found under earlier same-named declarations are discarded by the
dict assignment). -/
theorem claim_C10_last_declaration_wins (content name : String)
    (hdup : 2 ≤ (classMatches content).countP (fun m => m.1 == name)) :
    (extract_classes content).countP (fun p => p.1 == name) = 1 ∧
    lookupD (extract_classes content) name =
      (lastMatch name (classMatches content)).map
        (fun s => extract_class_methods (class_body content s)) := by
  have hex : ∃ m ∈ classMatches content, (m.1 == name) = true := by
    apply List.countP_pos_iff.mp
    omega
  constructor
  · rw [countP_keys]
    apply List.count_eq_one_of_mem
    · exact nodup_keys_foldl (classPairs content) [] (by simp)
    · apply mem_keys_foldl
      rcases hex with ⟨m, hm, hmk⟩
      refine ⟨(m.1, extract_class_methods (class_body content m.2)), ?_, eq_of_beq hmk⟩
      unfold classPairs
      exact List.mem_map_of_mem _ hm
  · rw [extract_classes, lookupD_foldl]
    unfold classPairs
    rw [lastVal_map_matches name (fun s => extract_class_methods (class_body content s))
      (classMatches content)]
    cases lastMatch name (classMatches content) with
    | none => rfl
    | some s => rfl

/-- Instantiation of claim C10: a file declaring class A twice, with method
a in the first body and method b in the second; the mapping keeps one entry
for A carrying the members of the last declaration. -/
theorem claim_C10_last_declaration_wins_witness :
    (extract_classes "class A \x7b a()\x7b\x7d \x7d \x7d class A \x7b b()\x7b\x7d \x7d \x7d").countP
      (fun p => p.1 == "A") = 1 ∧
    lookupD (extract_classes "class A \x7b a()\x7b\x7d \x7d \x7d class A \x7b b()\x7b\x7d \x7d \x7d")
      "A" = some ["b"] := by
  have h := claim_C10_last_declaration_wins
    "class A \x7b a()\x7b\x7d \x7d \x7d class A \x7b b()\x7b\x7d \x7d \x7d" "A" (by decide)
  exact ⟨h.1, h.2.trans (by decide)⟩

end AnalyzeFramework
